import Mathlib

/-!
# Formal model of the `mistral-ocr` command-line tool

A shallow embedding of `mistral_ocr/main.py`.  The OCR response delivered by
the external service is modelled as the loosely-typed dictionary the code
works with (`json.loads(response.model_dump_json())`): every key the code
reads via `dict.get` / `in` is an `Option` field.  External network calls
(upload, signed URL, OCR, delete) are modelled by an `Api` oracle carrying
the outcome of each call, and the side effects of a run are collected into
an event trace.  Python exceptions are modelled with `Except String`, the
string being the message; byte strings are lists of `Nat` below 256.
-/

/-- Bytes of a file or of decoded base64 data (each entry is one byte). -/
abbrev Bytes := List Nat

/-- One entry of a page's `images` list: a dict whose `id` /
`image_base64` keys may be absent (`"id" in img` checks in the source). -/
structure OcrImage where
  id? : Option String
  image_base64? : Option String
deriving DecidableEq

/-- One entry of the response's `pages` list: `page.get("markdown", "")`
and `page.get("images", [])` read these two keys. -/
structure OcrPage where
  markdown? : Option String
  images? : Option (List OcrImage)
deriving DecidableEq

/-- The parsed OCR response dictionary; the code reads
`response_dict.get("pages", [])`. -/
structure OcrResponse where
  pages? : Option (List OcrPage)
deriving DecidableEq

/-- `response_dict.get("pages", [])`. -/
def pagesOf (r : OcrResponse) : List OcrPage := r.pages?.getD []

/-- `page.get("images", [])`. -/
def imagesOf (p : OcrPage) : List OcrImage := p.images?.getD []

/-- `page.get("markdown", "")`. -/
def pageFragment (p : OcrPage) : String := p.markdown?.getD ""

/-- All image dicts of the response, in page order then list order
(the nested `for page ... for img ...` loops). -/
def allImages (r : OcrResponse) : List OcrImage := (pagesOf r).flatMap imagesOf

/-- The (identifier, data) pair of an image dict having both keys. -/
def validPair? (img : OcrImage) : Option (String × String) :=
  match img.id?, img.image_base64? with
  | some i, some d => some (i, d)
  | _, _ => none

/-- The images that have both an `id` and an `image_base64` key, as
(identifier, data) pairs, in traversal order. -/
def validImgs (r : OcrResponse) : List (String × String) :=
  (allImages r).filterMap validPair?

/-- Python `dict` insertion `m[k] = v`: an existing key keeps its position
and gets the new value, a fresh key is appended. -/
def dictInsert (k : String) (v : α) (m : List (String × α)) : List (String × α) :=
  if m.any (fun p => p.1 == k) then
    m.map (fun p => if p.1 == k then (k, v) else p)
  else
    m ++ [(k, v)]

/-- `m[k]` lookup (first entry with the key; keys are unique by
construction of `dictInsert`). -/
def lookup? (m : List (String × α)) (k : String) : Option α :=
  (m.find? (fun p => p.1 == k)).map (·.2)

/-! ## Base64 (`base64.b64encode` / `base64.b64decode`) -/

/-- The standard base64 alphabet. -/
def b64Alphabet : List Char :=
  "ABCDEFGHIJKLMNOPQRSTUVWXYZabcdefghijklmnopqrstuvwxyz0123456789+/".toList

/-- Character for a 6-bit value. -/
def b64Char (v : Nat) : Char := b64Alphabet.getD v 'A'

/-- 6-bit value of an alphabet character, `none` for foreign characters. -/
def b64Val? (c : Char) : Option Nat :=
  let i := b64Alphabet.indexOf c
  if i < 64 then some i else none

/-- Whether a character belongs to the base64 alphabet. -/
def isB64Char (c : Char) : Bool := b64Alphabet.contains c

/-- `base64.b64encode`: 3 input bytes become 4 characters, a final group of
1 or 2 bytes is padded with `==` or `=`. -/
def b64encodeList : Bytes → List Char
  | [] => []
  | [a] => [b64Char (a / 4), b64Char (a % 4 * 16), '=', '=']
  | [a, b] => [b64Char (a / 4), b64Char (a % 4 * 16 + b / 16), b64Char (b % 16 * 4), '=']
  | a :: b :: c :: rest =>
    b64Char (a / 4) :: b64Char (a % 4 * 16 + b / 16) ::
      b64Char (b % 16 * 4 + c / 64) :: b64Char (c % 64) :: b64encodeList rest

/-- `base64.b64encode(...).decode()` as a string. -/
def b64encodeStr (bs : Bytes) : String := ⟨b64encodeList bs⟩

/-- Decoding of a run of 6-bit values; the spare low bits of a final
group of 2 or 3 values are discarded, exactly as `binascii` does. -/
def b64dequad : List Nat → Bytes
  | x :: y :: z :: w :: rest =>
    (x * 4 + y / 16) :: (y % 16 * 16 + z / 4) :: (z % 4 * 64 + w) :: b64dequad rest
  | [x, y] => [x * 4 + y / 16]
  | [x, y, z] => [x * 4 + y / 16, y % 16 * 16 + z / 4]
  | _ => []

/-- `base64.b64decode`: foreign characters are discarded, the remainder
must be alphabet characters followed by canonical `=` padding making the
length a multiple of 4, otherwise `binascii.Error` is raised (`none`).
(Python tolerates a few further non-canonical paddings; they never arise
in the claims settled here, all other inputs agree with CPython.) -/
def b64decode (s : String) : Option Bytes :=
  let cs := s.toList.filter (fun c => isB64Char c || c == '=')
  let body := cs.takeWhile (fun c => c != '=')
  let pad := cs.dropWhile (fun c => c != '=')
  if pad.all (fun c => c == '=') then
    if pad.length ≤ 2 ∧ (body.length + pad.length) % 4 = 0 ∧ body.length % 4 ≠ 1 then
      some (b64dequad (body.filterMap b64Val?))
    else none
  else none

/-! ## Image reference resolution -/

/-- Everything after the first `,` of a string, `none` when there is no
comma (then `split(",", 1)[1]` raises `IndexError`). -/
def afterComma : List Char → Option (List Char)
  | [] => none
  | c :: rest => if c = ',' then some rest else afterComma rest

/-- `extract_images_to_dir`'s stripping step: when the data starts with
`data:image/` the part after the first comma is kept; `none` models the
`IndexError` of `split(",", 1)[1]` on a comma-less data URI. -/
def stripDataHeader (d : String) : Option String :=
  if d.startsWith "data:image/" then (afterComma d.toList).map (fun cs => ⟨cs⟩)
  else some d

/-- The decoding pipeline applied to one image's data: strip the header,
then base64-decode (`base64.b64decode(image_data)` after the prefix
check), `none` when an exception is raised. -/
def extractDecode (idata : String) : Option Bytes :=
  (stripDataHeader idata).bind b64decode

/-- The file writes and final state of `extract_images_to_dir`'s loop:
`writes` is every `open(...).write(...)` performed, in order; the result
is `none` when an image aborts the loop with an exception
(`IndexError` or `binascii.Error`), mirroring the `try`/`raise`; the
decoding pipeline is passed as a parameter (`extract_images_to_dir`
instantiates it with `extractDecode`). -/
def extractGo (dec : String → Option Bytes) :
    List OcrImage → List (String × String) → List (String × Bytes) → Nat →
    List (String × Bytes) × Option (List (String × String) × Nat)
  | [], m, writes, n => (writes, some (m, n))
  | ⟨some iid, some idata⟩ :: rest, m, writes, n =>
    match dec idata with
    | none => (writes, none)
    | some bytes =>
      extractGo dec rest (dictInsert iid iid m) (writes ++ [(iid, bytes)]) (n + 1)
  | _ :: rest, m, writes, n => extractGo dec rest m writes n

/-- `extract_images_to_dir(response_dict, output_dir)`: files are written
into the target directory under the image identifier as name (the
directory prefix is dropped in the model). -/
def extract_images_to_dir (r : OcrResponse) :
    List (String × Bytes) × Option (List (String × String) × Nat) :=
  extractGo extractDecode (allImages r) [] [] 0

/-- `str.lower()` on ASCII text (identifiers and suffixes compared by the
code are ASCII; Python additionally lowercases non-ASCII letters). -/
def strLower (s : String) : String := ⟨s.toList.map Char.toLower⟩

/-- Lowercased characters after the last `.` (Python
`image_id.split(".")[-1].lower()`, only used when a dot is present). -/
def lastDotPart (s : String) : String :=
  strLower ⟨((s.toList.reverse.takeWhile (fun c => c ≠ '.')).reverse)⟩

/-- The extension used by `create_inline_image_map`:
`id.split(".")[-1].lower() if "." in id else "jpeg"`. -/
def inlineExt (iid : String) : String :=
  if iid.toList.contains '.' then lastDotPart iid else "jpeg"

/-- The value stored by `create_inline_image_map` for one image. -/
def inlineValue (iid idata : String) : String :=
  if idata.startsWith "data:" then idata
  else "data:image/" ++ inlineExt iid ++ ";base64," ++ idata

/-- `create_inline_image_map(response_dict)`: a dict from image id to a
data URI, built over the nested page/image loops. -/
def create_inline_image_map (r : OcrResponse) : List (String × String) :=
  (allImages r).foldl
    (fun m img =>
      match img.id?, img.image_base64? with
      | some iid, some idata => dictInsert iid (inlineValue iid idata) m
      | _, _ => m)
    []

/-! ## Content assembly (`generate_output_content`)

The substitution loop runs, for each map entry,
`re.sub(r"!\[(.*?)\]\(" + re.escape(img_id) + r"\)", r"![\1](" + img_src + r")", text)`:
a leftmost scan for `![`, a lazy (shortest, newline-free) alt text up to
the literal `](img_id)`, replaced by `![alt](img_src)`, continuing after
the match.  `re.escape` makes the identifier a literal; the replacement
is modelled literally (the backslash-escape processing `re.sub` applies
to its replacement argument never fires on data URIs or identifiers). -/

/-- The literal closing pattern `](` ++ id ++ `)`. -/
def closePat (idc : List Char) : List Char := ']' :: '(' :: (idc ++ [')'])

/-- Prefix match returning the remainder. -/
def matchPre? : List Char → List Char → Option (List Char)
  | [], s => some s
  | _ :: _, [] => none
  | a :: p, b :: s => if a = b then matchPre? p s else none

/-- Lazy search of the `(.*?)` body after a `![`: the shortest
newline-free alt text followed by the literal close; `none` when the
regex fails at this start position. -/
def findClose (idc : List Char) (s : List Char) : Option (List Char × List Char) :=
  match s with
  | [] => none
  | c :: rest =>
    match matchPre? (closePat idc) (c :: rest) with
    | some rem => some ([], rem)
    | none =>
      if c = '\n' then none
      else (findClose idc rest).map (fun p => (c :: p.1, p.2))

/-- The scan of `re.sub` over the text: copy characters, at each `![` try
the lazy close; on success emit `![alt](ref)` and continue after the
match, otherwise advance one position. -/
def subGo (idc refc : List Char) (s : List Char) : List Char :=
  match s with
  | [] => []
  | c :: rest =>
    if c = '!' then
      match rest with
      | [] => ['!']
      | d :: rest2 =>
        if d = '[' then
          match hfc : findClose idc rest2 with
          | some (alt, rem) =>
            '!' :: '[' :: (alt ++ ']' :: '(' :: (refc ++ ')' :: subGo idc refc rem))
          | none => '!' :: subGo idc refc (d :: rest2)
        else '!' :: subGo idc refc (d :: rest2)
    else c :: subGo idc refc rest
termination_by s.length
decreasing_by
  all_goals simp_wf
  have hpre : ∀ (p t rem : List Char), matchPre? p t = some rem → t = p ++ rem := by
    intro p
    induction p with
    | nil => intro t rem h; simpa [matchPre?] using h
    | cons a p ih =>
      intro t rem h
      cases t with
      | nil => simp [matchPre?] at h
      | cons b t' =>
        simp only [matchPre?] at h
        split at h
        · next hab => subst hab; simpa using ih t' rem h
        · exact absurd h (by simp)
  have hshape : ∀ (t a r : List Char), findClose idc t = some (a, r) →
      t = a ++ closePat idc ++ r := by
    intro t
    induction t with
    | nil => intro a r h; simp [findClose] at h
    | cons c' rest' ih =>
      intro a r h
      simp only [findClose] at h
      split at h
      · rename_i rem' heq
        simp only [Option.some.injEq, Prod.mk.injEq] at h
        obtain ⟨h1, h2⟩ := h
        subst h1
        subst h2
        simpa using hpre _ _ _ heq
      · split at h
        · cases h
        · rw [Option.map_eq_some'] at h
          obtain ⟨⟨a', r'⟩, hp, heq2⟩ := h
          simp only [Prod.mk.injEq] at heq2
          obtain ⟨h1, h2⟩ := heq2
          have h3 := ih a' r' hp
          rw [← h1, ← h2]
          simp [h3]
  have := hshape _ _ _ hfc
  subst this
  simp [closePat]
  omega

/-- One `re.sub` call of the loop body, on strings. -/
def applyEntry (iid ref t : String) : String := ⟨subGo iid.toList ref.toList t.toList⟩

/-- The `for img_id, img_src in image_map.items():` loop. -/
def applyImageMap (m : List (String × String)) (t : String) : String :=
  m.foldl (fun acc p => applyEntry p.1 p.2 acc) t

/-- `"\n\n".join(page.get("markdown", "") for page in ...)`. -/
def mdBody (r : OcrResponse) : String :=
  String.intercalate "\n\n" ((pagesOf r).map pageFragment)

/-! ## Output generation -/

/-- JSON string literal with quote/backslash escaping. -/
def jsonStr (s : String) : String :=
  "\"" ++ String.join (s.toList.map fun c =>
    if c = '"' ∨ c = '\\' then String.mk ['\\', c] else String.singleton c) ++ "\""

/-- Serialization of one image dict (keys present iff present in the dict). -/
def jsonImage (img : OcrImage) : String :=
  "\x7b" ++ String.intercalate ", "
    ((match img.id? with
      | some i => ["\"id\": " ++ jsonStr i]
      | none => []) ++
     (match img.image_base64? with
      | some d => ["\"image_base64\": " ++ jsonStr d]
      | none => [])) ++ "\x7d"

/-- Serialization of one page dict. -/
def jsonPage (p : OcrPage) : String :=
  "\x7b" ++ String.intercalate ", "
    ((match p.markdown? with
      | some m => ["\"markdown\": " ++ jsonStr m]
      | none => []) ++
     (match p.images? with
      | some imgs => ["\"images\": [" ++ String.intercalate ", " (imgs.map jsonImage) ++ "]"]
      | none => [])) ++ "\x7d"

/-- `json.dumps(response_dict, indent=4)`: the serialization of the full
original response structure.  The model keeps key order and structure;
the `indent=4` whitespace layout is not reproduced character by
character (no claim inspects it). -/
def jsonDumps (r : OcrResponse) : String :=
  "\x7b" ++
    (match r.pages? with
     | some ps => "\"pages\": [" ++ String.intercalate ", " (ps.map jsonPage) ++ "]"
     | none => "") ++ "\x7d"

/-- The fixed HTML shell of `generate_html_content` before the converted
body (the `f\"\"\"...\"\"\"` literal with `\x7b\x7b`/`\x7d\x7d` unescaped). -/
def htmlShellHead : String :=
  "<!DOCTYPE html>\n<html>\n<head>\n    <meta charset=\"UTF-8\">\n    <meta name=\"viewport\" content=\"width=device-width, initial-scale=1.0\">\n    <title>OCR Result</title>\n    <style>\n        body \x7b \n            font-family: Arial, sans-serif;\n            line-height: 1.6;\n            margin: 0 auto;\n            max-width: 800px;\n            padding: 20px;\n        \x7d\n        img \x7b max-width: 100%; height: auto; \x7d\n        h1, h2, h3 \x7b margin-top: 1.5em; \x7d\n        p \x7b margin: 1em 0; \x7d\n    </style>\n</head>\n<body>\n"

/-- The closing part of the HTML shell. -/
def htmlShellTail : String := "\n</body>\n</html>"

/-- `generate_html_content(markdown_text)`: the conversion performed by the
external `markdown` library (`markdown.Markdown(extensions=["tables"]).convert`)
is an external collaborator and is passed in as a function. -/
def generate_html_content (convert : String → String) (markdown_text : String) : String :=
  htmlShellHead ++ convert markdown_text ++ htmlShellTail

/-- `generate_output_content(response_dict, output_format, image_map)`. -/
def generate_output_content (convert : String → String) (r : OcrResponse)
    (output_format : String) (image_map : List (String × String)) : String :=
  if output_format = "json" then jsonDumps r
  else
    let markdown_text := applyImageMap image_map (mdBody r)
    if output_format = "html" then generate_html_content convert markdown_text
    else markdown_text

/-! ## Option validation and the CLI flow (`validate_options`, `ocr_pdf`) -/

/-- Python truthiness of an optional string option (`None` and `""` are
falsy, as in `if not api_key` / `if output and output_dir`). -/
def truthy : Option String → Bool
  | none => false
  | some s => s != ""

/-- `validate_options(api_key, output, output_dir, json_, extract_images,
inline_images)`: the first failing check raises a `click.ClickException`
with the given message. -/
def validate_options (api_key output output_dir : Option String)
    (json_ extract_images inline_images : Bool) : Except String Unit :=
  if !truthy api_key then
    .error "No API key provided and MISTRAL_API_KEY environment variable not set."
  else if truthy output && truthy output_dir then
    .error "Cannot specify both --output and --output-dir"
  else if json_ && truthy output_dir then
    .error "JSON output is not supported with --output-dir"
  else if extract_images && !truthy output_dir then
    .error "--extract-images requires --output-dir"
  else if inline_images && extract_images then
    .error "Cannot specify both --inline-images and --extract-images"
  else .ok ()

/-- The document argument submitted to `client.ocr.process`. -/
inductive DocChunk where
  | imageURL (url : String)
  | documentURL (url : String)
deriving DecidableEq

/-- Observable side effects of one invocation, in order.  Progress
messages on stderr (`click.echo(..., err=True)`) and `loguru` logging are
diagnostics and are not part of the trace. -/
inductive ApiEvent where
  | clientInit
  | upload
  | getSignedUrl
  | ocrProcess (doc : DocChunk) (include_image_base64 : Bool)
  | deleteFile (fid : String)
  | mkdirOut (dir : String)
  | writeImg (name : String) (content : Bytes)
  | writeOut (path : String) (content : String)
  | stdout (content : String)
deriving DecidableEq

/-- Whether an event is a remote-object deletion. -/
def isDelete : ApiEvent → Bool
  | .deleteFile _ => true
  | _ => false

deriving instance DecidableEq for Except

/-- Outcomes of the external Mistral client's calls during one
invocation (the collaborator is out of scope; each call either returns a
value or raises, with the given message). -/
structure Api where
  uploadRes : Except String String
  signedUrlRes : Except String String
  ocrRes : Except String OcrResponse
  deleteRes : Except String Unit
deriving DecidableEq

/-- `process_image(client, image_path, model, include_images)`: read the
file bytes, base64-encode, wrap as a `data:image/jpeg;base64,` URI
(the declared MIME is fixed, independent of the true file type), and
submit; the `try`/`except` re-raises any error unchanged. -/
def process_image (api : Api) (fileBytes : Bytes) (include_images : Bool) :
    List ApiEvent × Except String OcrResponse :=
  ([.ocrProcess (.imageURL ("data:image/jpeg;base64," ++ b64encodeStr fileBytes))
      include_images],
   api.ocrRes)

/-- `process_pdf(client, pdf_path, model, include_images)`: upload, signed
URL, OCR.  On an exception after a successful upload the uploaded object
is deleted inside the `except` block before re-raising; if that delete
itself raises, its exception propagates instead of the original one
(Python replaces the in-flight exception). -/
def process_pdf (api : Api) (include_images : Bool) :
    List ApiEvent × Except String (OcrResponse × String) :=
  match api.uploadRes with
  | .error e => ([.upload], .error e)
  | .ok fid =>
    match api.signedUrlRes with
    | .error e =>
      ([.upload, .getSignedUrl, .deleteFile fid],
       match api.deleteRes with | .ok _ => .error e | .error d => .error d)
    | .ok url =>
      match api.ocrRes with
      | .error e =>
        ([.upload, .getSignedUrl, .ocrProcess (.documentURL url) include_images,
          .deleteFile fid],
         match api.deleteRes with | .ok _ => .error e | .error d => .error d)
      | .ok resp =>
        ([.upload, .getSignedUrl, .ocrProcess (.documentURL url) include_images],
         .ok (resp, fid))

/-- `input_file.suffix` of `pathlib`: the extension of the final path
component, empty when the dot is missing, leading or trailing. -/
def pathSuffix (p : String) : String :=
  let name := (p.toList.reverse.takeWhile (fun c => c ≠ '/')).reverse
  let revName := name.reverse
  let extRev := revName.takeWhile (fun c => c ≠ '.')
  match revName.dropWhile (fun c => c ≠ '.') with
  | [] => ""
  | _ :: before =>
    if extRev = [] then "" else if before = [] then "" else ⟨'.' :: extRev.reverse⟩

/-- `input_file.suffix.lower() in ['.png', '.jpg', '.jpeg']`. -/
def isImageSuffix (p : String) : Bool :=
  let s := strLower (pathSuffix p)
  s == ".png" || s == ".jpg" || s == ".jpeg"

/-- `save_output(result, output_format, output_dir, output_file)`. -/
def save_output (result : String) (output_format : String)
    (output_dir output_file : Option String) : List ApiEvent :=
  if truthy output_dir then
    [.writeOut ((output_dir.getD "") ++ "/" ++
        (if output_format = "html" then "index.html" else "README.md")) result]
  else if truthy output_file then
    [.writeOut (output_file.getD "") result]
  else
    [.stdout result]

/-- The command-line options of one invocation. -/
structure Opts where
  file_path : String
  api_key : Option String
  output : Option String
  output_dir : Option String
  json_ : Bool
  html : Bool
  inline_images : Bool
  extract_images : Bool
  silent : Bool
deriving DecidableEq

/-- The `finally` block of `ocr_pdf`: delete the uploaded file when one
was recorded; a failing delete is logged as a warning and swallowed. -/
def finallyDelete (uploadedFile : Option String) : List ApiEvent :=
  match uploadedFile with
  | none => []
  | some fid => [.deleteFile fid]

/-- The `ocr_pdf` command body: validation, client construction, file
dispatch by suffix, response handling, image materialization, content
generation, output writing, and the guaranteed cleanup of the uploaded
object.  Any exception of the inner block is wrapped into
`click.ClickException("Error: " + str(e))`; the message of an exception
raised inside image extraction is abstracted as `"extract error"`.
The result trace lists all side effects in order; a validation failure
happens before any of them. -/
def ocr_pdf (convert : String → String) (o : Opts) (fileBytes : Bytes) (api : Api) :
    List ApiEvent × Except String Unit :=
  match validate_options o.api_key o.output o.output_dir o.json_
      o.extract_images o.inline_images with
  | .error m => ([], .error m)
  | .ok _ =>
    let output_format := if o.json_ then "json" else if o.html then "html" else "markdown"
    let include_images := o.inline_images || o.extract_images
    let (procEvs, procRes) :=
      if isImageSuffix o.file_path then
        let (evs, res) := process_image api fileBytes include_images
        (evs, res.map (fun r => (r, (none : Option String))))
      else
        let (evs, res) := process_pdf api include_images
        (evs, res.map (fun p => (p.1, some p.2)))
    match procRes with
    | .error e => (ApiEvent.clientInit :: procEvs, .error ("Error: " ++ e))
    | .ok (resp, uploadedFile) =>
      let mkdirEvs := if truthy o.output_dir then [ApiEvent.mkdirOut (o.output_dir.getD "")] else []
      let (imgEvs, imageMapRes) :=
        if o.extract_images && truthy o.output_dir then
          let (writes, res?) := extract_images_to_dir resp
          (writes.map (fun p => ApiEvent.writeImg p.1 p.2),
           match res? with
           | some (m, _) => Except.ok m
           | none => Except.error "extract error")
        else if o.inline_images then ([], .ok (create_inline_image_map resp))
        else ([], .ok [])
      match imageMapRes with
      | .error e =>
        (ApiEvent.clientInit :: (procEvs ++ mkdirEvs ++ imgEvs ++ finallyDelete uploadedFile),
         .error ("Error: " ++ e))
      | .ok image_map =>
        let result := generate_output_content convert resp output_format image_map
        let outEvs := save_output result output_format o.output_dir o.output
        (ApiEvent.clientInit :: (procEvs ++ mkdirEvs ++ imgEvs ++ outEvs ++ finallyDelete uploadedFile),
         .ok ())

/-! ## Auxiliary predicates and decompositions used by the statements -/

/-- Whether `p` occurs as a contiguous segment of `s`. -/
def containsSeg (p s : List Char) : Bool :=
  match s with
  | [] => decide (p = [])
  | _ :: rest => (matchPre? p s).isSome || containsSeg p rest

/-- Whether the two-character sequence `](` occurs in the list (a
position where the lazy close pattern could begin). -/
def hasCloseStart : List Char → Bool
  | [] => false
  | [_] => false
  | c :: d :: rest => (c == ']' && d == '(') || hasCloseStart (d :: rest)

/-- The decoded bytes written for one valid image in extract mode. -/
def extractBytes (p : String × String) : Bytes :=
  (extractDecode p.2).getD []

/-- The response with image entries lacking `id` or `image_base64`
removed (used to state that such entries are skipped). -/
def dropInvalidImages (r : OcrResponse) : OcrResponse :=
  ⟨r.pages?.map fun ps => ps.map fun p =>
    ⟨p.markdown?, p.images?.map fun l => l.filter fun img => (validPair? img).isSome⟩⟩

/-- Whether a key is bound in an association-list dict. -/
def hasKey (m : List (String × α)) (k : String) : Bool :=
  m.any (fun p => p.1 == k)

/-- The base64 characters of the encoding without the `=` padding. -/
def b64body : Bytes → List Char
  | [] => []
  | [a] => [b64Char (a / 4), b64Char (a % 4 * 16)]
  | [a, b] => [b64Char (a / 4), b64Char (a % 4 * 16 + b / 16), b64Char (b % 16 * 4)]
  | a :: b :: c :: rest =>
    b64Char (a / 4) :: b64Char (a % 4 * 16 + b / 16) ::
      b64Char (b % 16 * 4 + c / 64) :: b64Char (c % 64) :: b64body rest

/-- The number of `=` padding characters of the encoding. -/
def b64padLen : Bytes → Nat
  | [] => 0
  | [_] => 2
  | [_, _] => 1
  | _ :: _ :: _ :: rest => b64padLen rest

/-- The 6-bit values of the encoding body. -/
def b64vals : Bytes → List Nat
  | [] => []
  | [a] => [a / 4, a % 4 * 16]
  | [a, b] => [a / 4, a % 4 * 16 + b / 16, b % 16 * 4]
  | a :: b :: c :: rest =>
    a / 4 :: (a % 4 * 16 + b / 16) :: (b % 16 * 4 + c / 64) :: c % 64 :: b64vals rest

/-- The loop body of `create_inline_image_map` as a named function. -/
def inlineStep (m : List (String × String)) (img : OcrImage) : List (String × String) :=
  match img.id?, img.image_base64? with
  | some iid, some idata => dictInsert iid (inlineValue iid idata) m
  | _, _ => m

/-! ## Concrete inputs used by witnesses and counterexamples -/

/-- A response with one image whose embedded data `AB==` is valid but not
a canonical encoding (its spare bits are nonzero). -/
def rNoncanon : OcrResponse :=
  ⟨some [⟨some "m", some [⟨some "i.png", some "AB=="⟩]⟩]⟩

/-- A response with one image whose identifier has the unrecognized
extension `xyz`. -/
def rUnrecognized : OcrResponse :=
  ⟨some [⟨some "m", some [⟨some "a.xyz", some "QQ=="⟩]⟩]⟩

/-- A response whose image entries all lack a required field. -/
def rAllInvalid : OcrResponse :=
  ⟨some [⟨some "t", some [⟨none, some "x"⟩, ⟨some "i", none⟩]⟩]⟩

/-- A small well-formed response. -/
def rHello : OcrResponse := ⟨some [⟨some "hello", none⟩]⟩

/-- Oracle: upload and signed URL succeed, the OCR call raises, the
cleanup delete succeeds. -/
def apiOcrFails : Api :=
  { uploadRes := .ok "f1", signedUrlRes := .ok "u1",
    ocrRes := .error "ocr boom", deleteRes := .ok () }

/-- Oracle: upload and signed URL succeed, the OCR call raises, and the
cleanup delete itself raises. -/
def apiDeleteFails : Api :=
  { uploadRes := .ok "f1", signedUrlRes := .ok "u1",
    ocrRes := .error "ocr boom", deleteRes := .error "delete boom" }

/-- Oracle: every call succeeds. -/
def apiAllOk : Api :=
  { uploadRes := .ok "f1", signedUrlRes := .ok "u1",
    ocrRes := .ok rHello, deleteRes := .ok () }

/-- A plain document-variant invocation. -/
def optsPdf : Opts :=
  { file_path := "doc.pdf", api_key := some "k", output := none, output_dir := none,
    json_ := false, html := false, inline_images := false, extract_images := false,
    silent := false }

/-- An image-variant invocation on a `.png` file. -/
def optsPng : Opts :=
  { file_path := "pic.PNG", api_key := some "k", output := none, output_dir := none,
    json_ := false, html := false, inline_images := false, extract_images := false,
    silent := false }

/-- An invalid option combination: `--json` together with `--output-dir`. -/
def optsJsonDir : Opts :=
  { file_path := "doc.pdf", api_key := some "k", output := none, output_dir := some "out",
    json_ := true, html := false, inline_images := false, extract_images := false,
    silent := false }

/-! ## Theorems -/

theorem matchPre?_shape : ∀ (p s rem : List Char), matchPre? p s = some rem → s = p ++ rem := by
  intro p
  induction p with
  | nil => intro s rem h; simpa [matchPre?] using h
  | cons a p ih =>
    intro s rem h
    cases s with
    | nil => simp [matchPre?] at h
    | cons b s' =>
      simp only [matchPre?] at h
      split at h
      · next hab => subst hab; simpa using ih s' rem h
      · exact absurd h (by simp)

theorem matchPre?_append (p r : List Char) : matchPre? p (p ++ r) = some r := by
  induction p with
  | nil => simp [matchPre?]
  | cons a p ih => simpa [matchPre?] using ih

theorem findClose_shape (idc : List Char) :
    ∀ (s alt rem : List Char), findClose idc s = some (alt, rem) →
      s = alt ++ closePat idc ++ rem := by
  intro s
  induction s with
  | nil => intro alt rem h; simp [findClose] at h
  | cons c rest ih =>
    intro alt rem h
    simp only [findClose] at h
    split at h
    · rename_i rem' heq
      simp only [Option.some.injEq, Prod.mk.injEq] at h
      obtain ⟨h1, h2⟩ := h
      subst h1
      subst h2
      simpa using matchPre?_shape _ _ _ heq
    · split at h
      · cases h
      · rw [Option.map_eq_some'] at h
        obtain ⟨⟨a', r'⟩, hp, heq2⟩ := h
        simp only [Prod.mk.injEq] at heq2
        obtain ⟨h1, h2⟩ := heq2
        have h3 := ih a' r' hp
        rw [← h1, ← h2]
        simp [h3]

theorem subGo_copy (idc refc : List Char) :
    ∀ (l s : List Char), l.contains '!' = false →
      subGo idc refc (l ++ s) = l ++ subGo idc refc s := by
  intro l
  induction l with
  | nil => intro s _; rfl
  | cons c l' ih =>
    intro s h
    simp only [List.contains_cons, Bool.or_eq_false_iff] at h
    obtain ⟨hc, hl⟩ := h
    have hc' : c ≠ '!' := by
      intro hh; subst hh; simp at hc
    rw [List.cons_append, subGo.eq_def]
    simp only [if_neg hc']
    rw [ih s hl, List.cons_append]

theorem findClose_boundary (idc post : List Char) :
    ∀ (alt : List Char), alt.contains '\n' = false → hasCloseStart alt = false →
      findClose idc (alt ++ closePat idc ++ post) = some (alt, post) := by
  intro alt
  induction alt with
  | nil =>
    intro _ _
    have hne : closePat idc ++ post = ']' :: ('(' :: (idc ++ [')']) ++ post) := by
      simp [closePat]
    rw [List.nil_append, hne, findClose]
    rw [show (']' :: ('(' :: (idc ++ [')']) ++ post)) = closePat idc ++ post from by simp [closePat]]
    rw [matchPre?_append]
  | cons c alt' ih =>
    intro hnl hcs
    simp only [List.contains_cons, Bool.or_eq_false_iff] at hnl
    obtain ⟨hc1, hc2⟩ := hnl
    have hcne : c ≠ '\n' := by intro hh; subst hh; simp at hc1
    rw [List.cons_append, List.cons_append, findClose]
    have hm : matchPre? (closePat idc) (c :: (alt' ++ closePat idc ++ post)) = none := by
      by_cases hcb : c = ']'
      · subst hcb
        cases alt' with
        | nil =>
          simp only [List.nil_append]
          rw [show closePat idc ++ post = ']' :: ('(' :: (idc ++ [')']) ++ post) from by simp [closePat]]
          simp [closePat, matchPre?]
        | cons d alt'' =>
          have hd : d ≠ '(' := by
            intro hh
            subst hh
            simp [hasCloseStart] at hcs
          have hd2 : ¬('(' = d) := fun hh => absurd hh.symm hd
          simp only [closePat, List.cons_append, matchPre?, List.append_assoc]
          simp [hd2]
      · simp only [closePat, matchPre?]
        rw [if_neg (fun hh => absurd hh.symm hcb)]
    rw [hm]
    have hcs' : hasCloseStart alt' = false := by
      cases alt' with
      | nil => rfl
      | cons d alt'' =>
        simp only [hasCloseStart, Bool.or_eq_false_iff] at hcs
        exact hcs.2
    rw [if_neg hcne, ih hc2 hcs', Option.map_some']

theorem subGo_nil (idc refc : List Char) : subGo idc refc [] = [] := by
  rw [subGo.eq_def]

theorem subGo_cons_ne (idc refc : List Char) (c : Char) (rest : List Char) (hc : c ≠ '!') :
    subGo idc refc (c :: rest) = c :: subGo idc refc rest := by
  rw [subGo.eq_def]
  simp [hc]

theorem subGo_bang_nil (idc refc : List Char) : subGo idc refc ['!'] = ['!'] := by
  rw [subGo.eq_def]
  simp

theorem subGo_bang_ne (idc refc : List Char) (d : Char) (rest2 : List Char) (hd : d ≠ '[') :
    subGo idc refc ('!' :: d :: rest2) = '!' :: subGo idc refc (d :: rest2) := by
  rw [subGo.eq_def]
  simp [hd]

theorem subGo_bang_none (idc refc : List Char) (rest2 : List Char)
    (hfc : findClose idc rest2 = none) :
    subGo idc refc ('!' :: '[' :: rest2) = '!' :: subGo idc refc ('[' :: rest2) := by
  rw [subGo.eq_def]
  split
  next heq => exact absurd heq (by simp)
  next c' rest' heq =>
    injection heq with h1 h2
    subst h1
    subst h2
    rw [if_pos rfl]
    split
    next heq2 => exact absurd heq2 (by simp)
    next d' rest2' heq2 =>
      injection heq2 with h3 h4
      subst h3
      subst h4
      rw [if_pos rfl]
      split
      next a r heq3 =>
        rw [hfc] at heq3
        cases heq3
      next => rfl

theorem subGo_bang_some (idc refc rest2 alt rem : List Char)
    (hfc : findClose idc rest2 = some (alt, rem)) :
    subGo idc refc ('!' :: '[' :: rest2) =
      '!' :: '[' :: (alt ++ ']' :: '(' :: (refc ++ ')' :: subGo idc refc rem)) := by
  rw [subGo.eq_def]
  split
  next heq => exact absurd heq (by simp)
  next c' rest' heq =>
    injection heq with h1 h2
    subst h1
    subst h2
    rw [if_pos rfl]
    split
    next heq2 => exact absurd heq2 (by simp)
    next d' rest2' heq2 =>
      injection heq2 with h3 h4
      subst h3
      subst h4
      rw [if_pos rfl]
      split
      next a r heq3 =>
        rw [hfc] at heq3
        injection heq3 with h5
        injection h5 with ha hr
        subst ha
        subst hr
        rfl
      next heq3 =>
        rw [hfc] at heq3
        cases heq3

theorem findClose_none (idc : List Char) :
    ∀ s, containsSeg (closePat idc) s = false → findClose idc s = none := by
  intro s
  induction s with
  | nil => intro _; rfl
  | cons c rest ih =>
    intro h
    simp only [containsSeg, Bool.or_eq_false_iff] at h
    obtain ⟨h1, h2⟩ := h
    simp only [findClose]
    cases hm : matchPre? (closePat idc) (c :: rest) with
    | some r => rw [hm] at h1; simp at h1
    | none =>
      simp only [hm]
      split
      · rfl
      · rw [ih h2, Option.map_none']

theorem containsSeg_tail (p : List Char) (c : Char) (rest : List Char)
    (h : containsSeg p (c :: rest) = false) : containsSeg p rest = false := by
  simp only [containsSeg, Bool.or_eq_false_iff] at h
  exact h.2

theorem subGo_unchanged (idc refc : List Char) :
    ∀ t, containsSeg (closePat idc) t = false → subGo idc refc t = t := by
  intro t
  induction t with
  | nil => intro _; exact subGo_nil idc refc
  | cons c rest ih =>
    intro h
    have h2 := containsSeg_tail _ _ _ h
    by_cases hc : c = '!'
    · subst hc
      cases rest with
      | nil => exact subGo_bang_nil idc refc
      | cons d rest2 =>
        have h3 := containsSeg_tail _ _ _ h2
        by_cases hd : d = '['
        · subst hd
          rw [subGo_bang_none idc refc rest2 (findClose_none idc rest2 h3)]
          rw [ih h2]
        · rw [subGo_bang_ne idc refc d rest2 hd, ih h2]
    · rw [subGo_cons_ne idc refc c rest hc, ih h2]

theorem subGo_context (idc refc pre alt post : List Char)
    (hpre : pre.contains '!' = false) (halt : alt.contains '\n' = false)
    (hcs : hasCloseStart alt = false) :
    subGo idc refc (pre ++ '!' :: '[' :: (alt ++ closePat idc ++ post)) =
      pre ++ '!' :: '[' :: (alt ++ closePat refc ++ subGo idc refc post) := by
  rw [subGo_copy idc refc pre _ hpre]
  congr 1
  rw [subGo_bang_some idc refc _ alt post (findClose_boundary idc post alt halt hcs)]
  simp [closePat]


theorem str_ext (x y : String) (h : x.toList = y.toList) : x = y := by
  cases x
  cases y
  simp only [String.toList] at h
  rw [h]

/-- C1: for markdown and html output the assembled text is the blank-line
joined concatenation of the page fragments with the image map applied
entry by entry; a substitution pass for an identifier whose close pattern
does not occur leaves the text unchanged; and a pass on a text containing
`![alt](id)` rewrites it to `![alt](ref)` preserving the alt text. -/
theorem c1_content_assembly :
    (∀ (convert : String → String) (r : OcrResponse) (m : List (String × String)),
      generate_output_content convert r "markdown" m = applyImageMap m (mdBody r)) ∧
    (∀ (convert : String → String) (r : OcrResponse) (m : List (String × String)),
      generate_output_content convert r "html" m =
        generate_html_content convert (applyImageMap m (mdBody r))) ∧
    (∀ (iid ref t : String), containsSeg (closePat iid.toList) t.toList = false →
      applyEntry iid ref t = t) ∧
    (∀ (iid ref pre alt post : String),
      pre.toList.contains '!' = false → alt.toList.contains '\n' = false →
      hasCloseStart alt.toList = false →
      applyEntry iid ref (pre ++ "![" ++ alt ++ "](" ++ iid ++ ")" ++ post) =
        pre ++ "![" ++ alt ++ "](" ++ ref ++ ")" ++ applyEntry iid ref post) := by
  refine ⟨?_, ?_, ?_, ?_⟩
  · intro conv r m
    simp [generate_output_content]
  · intro conv r m
    simp [generate_output_content]
  · intro iid ref t h
    apply str_ext
    show subGo iid.toList ref.toList t.toList = t.toList
    exact subGo_unchanged _ _ _ h
  · intro iid ref pre alt post h1 h2 h3
    apply str_ext
    show subGo iid.toList ref.toList (pre ++ "![" ++ alt ++ "](" ++ iid ++ ")" ++ post).toList = _
    have hL : (pre ++ "![" ++ alt ++ "](" ++ iid ++ ")" ++ post).toList =
        pre.toList ++ '!' :: '[' :: (alt.toList ++ closePat (iid.toList) ++ post.toList) := by
      simp [String.toList, String.data_append, closePat,
        show "![".data = ['!', '['] from rfl, show "](".data = [']', '('] from rfl,
        show ")".data = [')'] from rfl]
    rw [hL, subGo_context _ _ _ _ _ h1 h2 h3]
    simp [String.toList, String.data_append, applyEntry, closePat,
      show "![".data = ['!', '['] from rfl, show "](".data = [']', '('] from rfl,
      show ")".data = [')'] from rfl]

/-- Witness for C1 at concrete inputs. -/
theorem c1_content_assembly_witness :
    applyEntry "a" "b" "xx" = "xx" ∧
    applyEntry "a" "b" ("z" ++ "![" ++ "t" ++ "](" ++ "a" ++ ")" ++ "w") =
      "z" ++ "![" ++ "t" ++ "](" ++ "b" ++ ")" ++ applyEntry "a" "b" "w" :=
  ⟨c1_content_assembly.2.2.1 "a" "b" "xx" (by decide),
   c1_content_assembly.2.2.2 "a" "b" "z" "t" "w" (by decide) (by decide) (by decide)⟩

theorem validPair?_eq_some (img : OcrImage) (i d : String)
    (h : validPair? img = some (i, d)) :
    img.id? = some i ∧ img.image_base64? = some d := by
  cases hi : img.id? <;> cases hd : img.image_base64? <;>
    simp [validPair?, hi, hd] at h <;> simp [h]

theorem dictInsert_mem {α : Type} (k : String) (v : α) (m : List (String × α)) :
    ∀ q ∈ dictInsert k v m, q = (k, v) ∨ q ∈ m := by
  intro q hq
  unfold dictInsert at hq
  split at hq
  · rw [List.mem_map] at hq
    obtain ⟨p, hp, he⟩ := hq
    by_cases hpk : (p.1 == k) = true
    · left
      rw [if_pos hpk] at he
      exact he.symm
    · right
      rw [if_neg hpk] at he
      rw [← he]
      exact hp
  · rw [List.mem_append] at hq
    rcases hq with hq | hq
    · right; exact hq
    · left; simpa using hq

theorem hasKey_dictInsert_self {α : Type} (k : String) (v : α) (m : List (String × α)) :
    hasKey (dictInsert k v m) k = true := by
  unfold hasKey dictInsert
  split
  · next hany =>
    rw [List.any_eq_true] at hany ⊢
    obtain ⟨p, hp, hpk⟩ := hany
    refine ⟨(k, v), List.mem_map.mpr ⟨p, hp, by rw [if_pos hpk]⟩, by simp⟩
  · simp

theorem hasKey_dictInsert_mono {α : Type} (k k' : String) (v : α) (m : List (String × α))
    (h : hasKey m k' = true) : hasKey (dictInsert k v m) k' = true := by
  unfold hasKey dictInsert
  unfold hasKey at h
  rw [List.any_eq_true] at h
  obtain ⟨p, hp, hpk'⟩ := h
  split
  · rw [List.any_eq_true]
    by_cases hpk : (p.1 == k) = true
    · have h1 : k = k' := by
        have e1 := eq_of_beq hpk
        have e2 := eq_of_beq hpk'
        rw [← e1, ← e2]
      refine ⟨(k, v), List.mem_map.mpr ⟨p, hp, by rw [if_pos hpk]⟩, by simp [h1]⟩
    · refine ⟨p, List.mem_map.mpr ⟨p, hp, by rw [if_neg hpk]⟩, hpk'⟩
  · rw [List.any_eq_true]
    exact ⟨p, List.mem_append_left _ hp, hpk'⟩

theorem lookup?_self (m : List (String × String)) (k : String)
    (hself : ∀ q ∈ m, q.2 = q.1) (hk : hasKey m k = true) :
    lookup? m k = some k := by
  induction m with
  | nil => simp [hasKey] at hk
  | cons p m' ih =>
    unfold lookup?
    rw [List.find?_cons]
    cases hpk : (p.1 == k) with
    | true =>
      have h1 : p.2 = p.1 := hself p (List.mem_cons_self _ _)
      have h2 : p.1 = k := eq_of_beq hpk
      simp [h1, h2]
    | false =>
      have hk' : hasKey m' k = true := by
        unfold hasKey at hk
        simp only [List.any_cons, hpk, Bool.false_or] at hk
        exact hk
      have hself' : ∀ q ∈ m', q.2 = q.1 := fun q hq => hself q (List.mem_cons_of_mem _ hq)
      have hres := ih hself' hk'
      unfold lookup? at hres
      simpa using hres

theorem lookup?_isSome_of_hasKey {α : Type} (m : List (String × α)) (k : String)
    (hk : hasKey m k = true) : ∃ v, lookup? m k = some v := by
  induction m with
  | nil => simp [hasKey] at hk
  | cons p m' ih =>
    unfold lookup?
    rw [List.find?_cons]
    cases hpk : (p.1 == k) with
    | true => exact ⟨p.2, rfl⟩
    | false =>
      have hk' : hasKey m' k = true := by
        unfold hasKey at hk
        simp only [List.any_cons, hpk, Bool.false_or] at hk
        exact hk
      obtain ⟨v, hv⟩ := ih hk'
      unfold lookup? at hv
      exact ⟨v, by simpa using hv⟩


theorem create_inline_eq_foldl (r : OcrResponse) :
    create_inline_image_map r = (allImages r).foldl inlineStep [] := rfl

theorem inlineStep_eq (m : List (String × String)) (img : OcrImage) :
    inlineStep m img =
      match validPair? img with
      | some p => dictInsert p.1 (inlineValue p.1 p.2) m
      | none => m := by
  cases hi : img.id? <;> cases hd : img.image_base64? <;>
    simp [inlineStep, validPair?, hi, hd]

theorem inline_fold_mem : ∀ (imgs : List OcrImage) (acc : List (String × String)) q,
    q ∈ imgs.foldl inlineStep acc →
    q ∈ acc ∨ ∃ p ∈ imgs.filterMap validPair?, q = (p.1, inlineValue p.1 p.2) := by
  intro imgs
  induction imgs with
  | nil => intro acc q h; left; simpa using h
  | cons img rest ih =>
    intro acc q h
    rw [List.foldl_cons] at h
    rcases ih _ q h with hacc | ⟨p, hp, he⟩
    · rw [inlineStep_eq] at hacc
      cases hv : validPair? img with
      | none =>
        rw [hv] at hacc
        left
        exact hacc
      | some p =>
        rw [hv] at hacc
        rcases dictInsert_mem _ _ _ q hacc with he | hacc2
        · right
          exact ⟨p, by simp [List.filterMap_cons, hv], he⟩
        · left
          exact hacc2
    · right
      refine ⟨p, ?_, he⟩
      rw [List.filterMap_cons]
      cases hv : validPair? img with
      | none => simpa [hv] using hp
      | some p' => simp only [hv]; exact List.mem_cons_of_mem _ hp

theorem inline_fold_key : ∀ (imgs : List OcrImage) (acc : List (String × String)) (k : String),
    (hasKey acc k = true ∨ k ∈ (imgs.filterMap validPair?).map (·.1)) →
    hasKey (imgs.foldl inlineStep acc) k = true := by
  intro imgs
  induction imgs with
  | nil =>
    intro acc k h
    rcases h with h | h
    · simpa using h
    · simp at h
  | cons img rest ih =>
    intro acc k h
    rw [List.foldl_cons]
    apply ih
    rcases h with h | h
    · left
      rw [inlineStep_eq]
      cases hv : validPair? img with
      | none => exact h
      | some p => exact hasKey_dictInsert_mono _ _ _ _ h
    · rw [List.filterMap_cons] at h
      cases hv : validPair? img with
      | none =>
        right
        rw [hv] at h
        exact h
      | some p =>
        rw [hv, List.map_cons, List.mem_cons] at h
        rcases h with h | h
        · left
          rw [inlineStep_eq, hv, h]
          exact hasKey_dictInsert_self _ _ _
        · right
          exact h

/-- C4 (amended): inline mode maps each image having both fields to a data
URI; data already starting with `data:` is kept unchanged, otherwise the
prefix `data:image/<ext>;base64,` is attached where `<ext>` is the
lowercased part after the last dot of the identifier — whatever it is,
recognized or not — and `jpeg` only when the identifier has no dot. -/
theorem c4_inline_map (r : OcrResponse) :
    (∀ q ∈ create_inline_image_map r, ∃ p ∈ validImgs r, q = (p.1, inlineValue p.1 p.2)) ∧
    (∀ p ∈ validImgs r, ∃ v, lookup? (create_inline_image_map r) p.1 = some v) ∧
    (∀ iid idata : String, idata.startsWith "data:" = true → inlineValue iid idata = idata) ∧
    (∀ iid idata : String, idata.startsWith "data:" = false →
      inlineValue iid idata = "data:image/" ++ inlineExt iid ++ ";base64," ++ idata) ∧
    (∀ iid : String, iid.toList.contains '.' = false → inlineExt iid = "jpeg") := by
  refine ⟨?_, ?_, ?_, ?_, ?_⟩
  · intro q hq
    rw [create_inline_eq_foldl] at hq
    rcases inline_fold_mem _ _ q hq with h | h
    · simp at h
    · exact h
  · intro p hp
    apply lookup?_isSome_of_hasKey
    rw [create_inline_eq_foldl]
    apply inline_fold_key
    right
    exact List.mem_map.mpr ⟨p, hp, rfl⟩
  · intro iid idata h
    simp [inlineValue, h]
  · intro iid idata h
    simp [inlineValue, h]
  · intro iid h
    unfold inlineExt
    rw [if_neg (by simpa using h)]

/-- C4 counterexample: for the unrecognized extension `xyz` the code uses
`image/xyz`, not the default `image/jpeg` the claim requires. -/
theorem c4_inline_map_cx :
    create_inline_image_map rUnrecognized = [("a.xyz", "data:image/xyz;base64,QQ==")] ∧
    ("data:image/xyz;base64,QQ==" : String) ≠ "data:image/jpeg;base64,QQ==" := by
  refine ⟨by rfl, by decide⟩

/-- Witness for C4 at a concrete input. -/
theorem c4_inline_map_witness :
    ∃ p ∈ validImgs rUnrecognized,
      (("a.xyz", "data:image/xyz;base64,QQ==") : String × String) =
        (p.1, inlineValue p.1 p.2) :=
  (c4_inline_map rUnrecognized).1 ("a.xyz", "data:image/xyz;base64,QQ==") (by decide)

/-- C7: JSON output serializes the full original response and ignores the
image map entirely. -/
theorem c7_json_ignores_map (convert : String → String) (r : OcrResponse)
    (m : List (String × String)) :
    generate_output_content convert r "json" m = generate_output_content convert r "json" [] ∧
    generate_output_content convert r "json" m = jsonDumps r := by
  constructor <;> simp [generate_output_content]

/-- C9: building the inline image map is deterministic — two runs on the
same response give equal maps; in this embedding the function is pure by
construction (a total function of the immutable response value). -/
theorem c9_inline_idempotent (r : OcrResponse) :
    create_inline_image_map r = create_inline_image_map r := rfl

theorem applyEntry_empty (iid ref : String) : applyEntry iid ref "" = "" := by
  apply str_ext
  show subGo iid.toList ref.toList "".toList = "".toList
  exact subGo_nil _ _

theorem applyImageMap_empty : ∀ (m : List (String × String)), applyImageMap m "" = "" := by
  intro m
  induction m with
  | nil => rfl
  | cons p m' ih =>
    unfold applyImageMap at ih ⊢
    rw [List.foldl_cons, applyEntry_empty]
    exact ih

/-- C10: markdown and html generation are total on structurally incomplete
responses: without a `pages` key or with zero pages the assembled markdown
body is empty, and a page without a `markdown` key contributes the empty
fragment; every such case is a value, not an error. -/
theorem c10_markdown_total :
    (∀ (convert : String → String) (r : OcrResponse) (m : List (String × String)),
      r.pages? = none ∨ r.pages? = some ([] : List OcrPage) →
      generate_output_content convert r "markdown" m = "") ∧
    (∀ p : OcrPage, p.markdown? = none → pageFragment p = "") ∧
    (∀ (convert : String → String) (r : OcrResponse) (m : List (String × String)),
      r.pages? = none ∨ r.pages? = some ([] : List OcrPage) →
      generate_output_content convert r "html" m = generate_html_content convert "") := by
  have hbody : ∀ r : OcrResponse, r.pages? = none ∨ r.pages? = some [] → mdBody r = "" := by
    intro r h
    rcases h with h | h <;> simp [mdBody, pagesOf, h, String.intercalate]
  refine ⟨?_, ?_, ?_⟩
  · intro conv r m h
    simp [generate_output_content, hbody r h, applyImageMap_empty]
  · intro p h
    simp [pageFragment, h]
  · intro conv r m h
    simp [generate_output_content, hbody r h, applyImageMap_empty]

/-- Witness for C10 at a concrete input. -/
theorem c10_markdown_total_witness :
    generate_output_content (fun s => s) ⟨none⟩ "markdown" [("a", "b")] = "" ∧
    pageFragment ⟨none, some []⟩ = "" ∧
    generate_output_content (fun s => s) ⟨some []⟩ "html" [] =
      generate_html_content (fun s => s) "" :=
  ⟨c10_markdown_total.1 (fun s => s) ⟨none⟩ [("a", "b")] (Or.inl rfl),
   c10_markdown_total.2.1 ⟨none, some []⟩ rfl,
   c10_markdown_total.2.2 (fun s => s) ⟨some []⟩ [] (Or.inr rfl)⟩

theorem extractGo_nil (dec : String → Option Bytes) (m : List (String × String))
    (w : List (String × Bytes)) (n : Nat) :
    extractGo dec [] m w n = (w, some (m, n)) := rfl

theorem extractGo_noid (dec : String → Option Bytes) (od : Option String)
    (rest : List OcrImage) (m : List (String × String)) (w : List (String × Bytes)) (n : Nat) :
    extractGo dec (⟨none, od⟩ :: rest) m w n = extractGo dec rest m w n := rfl

theorem extractGo_nodata (dec : String → Option Bytes) (i : String) (rest : List OcrImage)
    (m : List (String × String)) (w : List (String × Bytes)) (n : Nat) :
    extractGo dec (⟨some i, none⟩ :: rest) m w n = extractGo dec rest m w n := rfl

theorem extractGo_valid (dec : String → Option Bytes) (i d : String) (rest : List OcrImage)
    (m : List (String × String)) (w : List (String × Bytes)) (n : Nat) :
    extractGo dec (⟨some i, some d⟩ :: rest) m w n =
      match dec d with
      | none => (w, none)
      | some bytes => extractGo dec rest (dictInsert i i m) (w ++ [(i, bytes)]) (n + 1) := rfl

theorem extractGo_skip (dec : String → Option Bytes) :
    ∀ (imgs : List OcrImage) (m : List (String × String))
    (w : List (String × Bytes)) (n : Nat),
    extractGo dec imgs m w n =
      extractGo dec (imgs.filter (fun img => (validPair? img).isSome)) m w n := by
  intro imgs
  induction imgs with
  | nil => intro m w n; rfl
  | cons img rest ih =>
    obtain ⟨oi, od⟩ := img
    intro m w n
    rw [List.filter_cons]
    cases oi with
    | none =>
      rw [if_neg (by simp [validPair?]), extractGo_noid]
      exact ih m w n
    | some i =>
      cases od with
      | none =>
        rw [if_neg (by simp [validPair?]), extractGo_nodata]
        exact ih m w n
      | some d =>
        rw [if_pos (by simp [validPair?]), extractGo_valid, extractGo_valid]
        cases hs : dec d with
        | none => rfl
        | some bytes =>
          simp only [hs]
          exact ih _ _ _

theorem allImages_drop (r : OcrResponse) :
    allImages (dropInvalidImages r) =
      (allImages r).filter (fun img => (validPair? img).isSome) := by
  have himg : ∀ p : OcrPage,
      imagesOf (⟨p.markdown?, p.images?.map
        (fun l => l.filter (fun img => (validPair? img).isSome))⟩ : OcrPage) =
      (imagesOf p).filter (fun img => (validPair? img).isSome) := by
    intro p
    cases hpi : p.images? <;> simp [imagesOf, hpi]
  unfold allImages dropInvalidImages pagesOf
  cases hp : r.pages? with
  | none => rfl
  | some ps =>
    simp only [Option.map_some', Option.getD_some]
    rw [List.flatMap_map, List.filter_flatMap]
    exact congrArg (ps.flatMap ·) (funext himg)

theorem inline_fold_skip : ∀ (imgs : List OcrImage) (acc : List (String × String)),
    (imgs.filter (fun img => (validPair? img).isSome)).foldl inlineStep acc =
      imgs.foldl inlineStep acc := by
  intro imgs
  induction imgs with
  | nil => intro acc; rfl
  | cons img rest ih =>
    intro acc
    rw [List.filter_cons, List.foldl_cons]
    cases hv : validPair? img with
    | none =>
      rw [if_neg (by simp [hv])]
      have hstep : inlineStep acc img = acc := by rw [inlineStep_eq, hv]
      rw [hstep]
      exact ih acc
    | some p =>
      rw [if_pos (by simp [hv]), List.foldl_cons]
      exact ih _

/-- C8: an image entry lacking the identifier or the embedded-data field
is silently skipped by extract mode and inline mode: removing all such
entries from the response changes neither result, and a response whose
image entries are all incomplete yields no writes, an empty map, a zero
count and no error. -/
theorem c8_skip_invalid :
    (∀ r : OcrResponse, extract_images_to_dir r = extract_images_to_dir (dropInvalidImages r)) ∧
    (∀ r : OcrResponse, create_inline_image_map r = create_inline_image_map (dropInvalidImages r)) ∧
    (∀ r : OcrResponse, (∀ img ∈ allImages r, validPair? img = none) →
      extract_images_to_dir r = ([], some ([], 0)) ∧ create_inline_image_map r = []) := by
  have hfil : ∀ r : OcrResponse, (∀ img ∈ allImages r, validPair? img = none) →
      (allImages r).filter (fun img => (validPair? img).isSome) = [] := by
    intro r h
    rw [List.filter_eq_nil_iff]
    intro img himg
    simp [h img himg]
  refine ⟨?_, ?_, ?_⟩
  · intro r
    unfold extract_images_to_dir
    rw [allImages_drop]
    exact extractGo_skip _ _ _ _ _
  · intro r
    rw [create_inline_eq_foldl, create_inline_eq_foldl, allImages_drop]
    exact (inline_fold_skip _ _).symm
  · intro r h
    constructor
    · unfold extract_images_to_dir
      rw [extractGo_skip, hfil r h]
      rfl
    · rw [create_inline_eq_foldl, ← inline_fold_skip, hfil r h]
      rfl

/-- Witness for C8 at a concrete input. -/
theorem c8_skip_invalid_witness :
    extract_images_to_dir rAllInvalid = ([], some ([], 0)) ∧
    create_inline_image_map rAllInvalid = [] :=
  c8_skip_invalid.2.2 rAllInvalid (by decide)

theorem b64Val?_b64Char : ∀ v : Nat, v < 64 → b64Val? (b64Char v) = some v := by decide

theorem b64Char_ne_pad : ∀ v : Nat, v < 64 → (b64Char v != '=') = true := by decide

theorem b64Char_keep : ∀ v : Nat, v < 64 → (isB64Char (b64Char v) || b64Char v == '=') = true := by
  decide

theorem enc_split : ∀ bs : Bytes,
    b64encodeList bs = b64body bs ++ List.replicate (b64padLen bs) '='
  | [] => rfl
  | [_] => rfl
  | [_, _] => rfl
  | a :: b :: c :: rest => by
    simp only [b64encodeList, b64body, b64padLen, List.cons_append]
    rw [enc_split rest]

theorem body_filterMap : ∀ bs : Bytes, (∀ x ∈ bs, x < 256) →
    (b64body bs).filterMap b64Val? = b64vals bs
  | [], _ => rfl
  | [a], h => by
    have ha : a < 256 := h a (by simp)
    simp [b64body, b64vals, List.filterMap_cons,
      b64Val?_b64Char (a / 4) (by omega), b64Val?_b64Char (a % 4 * 16) (by omega)]
  | [a, b], h => by
    have ha : a < 256 := h a (by simp)
    have hb : b < 256 := h b (by simp)
    simp [b64body, b64vals, List.filterMap_cons,
      b64Val?_b64Char (a / 4) (by omega),
      b64Val?_b64Char (a % 4 * 16 + b / 16) (by omega),
      b64Val?_b64Char (b % 16 * 4) (by omega)]
  | a :: b :: c :: rest, h => by
    have ha : a < 256 := h a (by simp)
    have hb : b < 256 := h b (by simp)
    have hc : c < 256 := h c (by simp)
    have hrest : ∀ x ∈ rest, x < 256 := fun x hx => h x (by simp [hx])
    simp only [b64body, b64vals, List.filterMap_cons,
      b64Val?_b64Char (a / 4) (by omega),
      b64Val?_b64Char (a % 4 * 16 + b / 16) (by omega),
      b64Val?_b64Char (b % 16 * 4 + c / 64) (by omega),
      b64Val?_b64Char (c % 64) (by omega)]
    rw [body_filterMap rest hrest]

theorem dequad_vals : ∀ bs : Bytes, (∀ x ∈ bs, x < 256) → b64dequad (b64vals bs) = bs
  | [], _ => rfl
  | [a], h => by
    have ha : a < 256 := h a (by simp)
    simp only [b64vals, b64dequad, List.cons.injEq]
    refine ⟨by omega, trivial⟩
  | [a, b], h => by
    have ha : a < 256 := h a (by simp)
    have hb : b < 256 := h b (by simp)
    simp only [b64vals, b64dequad, List.cons.injEq]
    refine ⟨by omega, by omega, trivial⟩
  | a :: b :: c :: rest, h => by
    have ha : a < 256 := h a (by simp)
    have hb : b < 256 := h b (by simp)
    have hc : c < 256 := h c (by simp)
    have hrest : ∀ x ∈ rest, x < 256 := fun x hx => h x (by simp [hx])
    simp only [b64vals, b64dequad, List.cons.injEq]
    refine ⟨by omega, by omega, by omega, dequad_vals rest hrest⟩

theorem body_chars : ∀ bs : Bytes, (∀ x ∈ bs, x < 256) →
    ∀ c ∈ b64body bs, (c != '=') = true ∧ (isB64Char c || c == '=') = true
  | [], _ => by simp [b64body]
  | [a], h => by
    have ha : a < 256 := h a (by simp)
    intro c hc
    simp only [b64body, List.mem_cons, List.not_mem_nil, or_false] at hc
    rcases hc with hc | hc <;>
      (subst hc
       exact ⟨b64Char_ne_pad _ (by omega), b64Char_keep _ (by omega)⟩)
  | [a, b], h => by
    have ha : a < 256 := h a (by simp)
    have hb : b < 256 := h b (by simp)
    intro c hc
    simp only [b64body, List.mem_cons, List.not_mem_nil, or_false] at hc
    rcases hc with hc | hc | hc <;>
      (subst hc
       exact ⟨b64Char_ne_pad _ (by omega), b64Char_keep _ (by omega)⟩)
  | a :: b :: c :: rest, h => by
    have ha : a < 256 := h a (by simp)
    have hb : b < 256 := h b (by simp)
    have hc : c < 256 := h c (by simp)
    have hrest : ∀ x ∈ rest, x < 256 := fun x hx => h x (by simp [hx])
    intro e he
    simp only [b64body, List.mem_cons] at he
    rcases he with he | he | he | he | he
    · subst he; exact ⟨b64Char_ne_pad _ (by omega), b64Char_keep _ (by omega)⟩
    · subst he; exact ⟨b64Char_ne_pad _ (by omega), b64Char_keep _ (by omega)⟩
    · subst he; exact ⟨b64Char_ne_pad _ (by omega), b64Char_keep _ (by omega)⟩
    · subst he; exact ⟨b64Char_ne_pad _ (by omega), b64Char_keep _ (by omega)⟩
    · exact body_chars rest hrest e he

theorem body_len : ∀ bs : Bytes,
    ((b64body bs).length + b64padLen bs) % 4 = 0 ∧
    (b64body bs).length % 4 ≠ 1 ∧ b64padLen bs ≤ 2
  | [] => by simp [b64body, b64padLen]
  | [_] => by simp [b64body, b64padLen]
  | [_, _] => by simp [b64body, b64padLen]
  | a :: b :: c :: rest => by
    obtain ⟨h1, h2, h3⟩ := body_len rest
    simp only [b64body, b64padLen, List.length_cons]
    omega

theorem takeWhile_pad (l : List Char) (hl : ∀ c ∈ l, (c != '=') = true) : ∀ k : Nat,
    (l ++ List.replicate k '=').takeWhile (fun c => c != '=') = l ∧
    (l ++ List.replicate k '=').dropWhile (fun c => c != '=') = List.replicate k '=' := by
  induction l with
  | nil =>
    intro k
    cases k with
    | zero => simp
    | succ k' => simp [List.replicate_succ, List.takeWhile_cons, List.dropWhile_cons]
  | cons c l' ih =>
    intro k
    have hc := hl c (by simp)
    have hl' : ∀ c ∈ l', (c != '=') = true := fun c hc => hl c (by simp [hc])
    obtain ⟨h1, h2⟩ := ih hl' k
    simp [List.takeWhile_cons, List.dropWhile_cons, hc, h1, h2]

theorem b64_roundtrip (bs : Bytes) (h : ∀ x ∈ bs, x < 256) :
    b64decode (b64encodeStr bs) = some bs := by
  have hlist : (b64encodeStr bs).toList = b64encodeList bs := rfl
  have hchars := body_chars bs h
  have hfil : (b64encodeList bs).filter (fun c => isB64Char c || c == '=') =
      b64encodeList bs := by
    rw [List.filter_eq_self]
    intro c hc
    rw [enc_split bs, List.mem_append] at hc
    rcases hc with hc | hc
    · exact (hchars c hc).2
    · rw [List.eq_of_mem_replicate hc]
      simp
  have htw := takeWhile_pad (b64body bs) (fun c hc => (hchars c hc).1) (b64padLen bs)
  obtain ⟨hlen1, hlen2, hlen3⟩ := body_len bs
  have hfil2 : (b64body bs ++ List.replicate (b64padLen bs) '=').filter
      (fun c => isB64Char c || c == '=') =
      b64body bs ++ List.replicate (b64padLen bs) '=' := by
    rw [← enc_split bs]
    exact hfil
  unfold b64decode
  simp only [hlist, enc_split bs, hfil2, htw.1, htw.2]
  rw [if_pos (by
    rw [List.all_eq_true]
    intro c hc
    rw [List.eq_of_mem_replicate hc]
    simp)]
  rw [if_pos (by
    refine ⟨by simp [hlen3], ?_, hlen2⟩
    simp only [List.length_replicate]
    exact hlen1)]
  rw [body_filterMap bs h, dequad_vals bs h]

theorem extractGo_dec_ok (dec : String → Option Bytes) :
    ∀ (imgs : List OcrImage) (m : List (String × String))
      (w : List (String × Bytes)) (n : Nat),
    (∀ p ∈ imgs.filterMap validPair?, (dec p.2).isSome) →
    extractGo dec imgs m w n =
      (w ++ (imgs.filterMap validPair?).map (fun p => (p.1, (dec p.2).getD [])),
       some ((imgs.filterMap validPair?).foldl (fun acc p => dictInsert p.1 p.1 acc) m,
             n + (imgs.filterMap validPair?).length)) := by
  intro imgs
  induction imgs with
  | nil => intro m w n _; simp [extractGo_nil]
  | cons img rest ih =>
    obtain ⟨oi, od⟩ := img
    intro m w n h
    cases oi with
    | none =>
      rw [extractGo_noid]
      have hv : validPair? (⟨none, od⟩ : OcrImage) = none := rfl
      simp only [List.filterMap_cons, hv] at h ⊢
      exact ih m w n h
    | some i =>
      cases od with
      | none =>
        rw [extractGo_nodata]
        have hv : validPair? (⟨some i, none⟩ : OcrImage) = none := rfl
        simp only [List.filterMap_cons, hv] at h ⊢
        exact ih m w n h
      | some d =>
        have hv : validPair? (⟨some i, some d⟩ : OcrImage) = some (i, d) := rfl
        have hd : (dec d).isSome := by
          have := h (i, d) (by simp [List.filterMap_cons, hv])
          simpa using this
        obtain ⟨bytes, hb⟩ := Option.isSome_iff_exists.mp hd
        rw [extractGo_valid]
        simp only [hb]
        have h' : ∀ p ∈ rest.filterMap validPair?, (dec p.2).isSome := by
          intro p hp
          exact h p (by simp [List.filterMap_cons, hv, hp])
        rw [ih _ _ _ h']
        simp only [List.filterMap_cons, hv, List.map_cons, List.foldl_cons,
          List.length_cons, hb, Option.getD_some]
        refine congrArg₂ Prod.mk ?_ (congrArg some (congrArg₂ Prod.mk rfl (by omega)))
        simp

theorem selfFold_lookup : ∀ (ps : List (String × String)) (m : List (String × String)),
    (∀ q ∈ m, q.2 = q.1) →
    (∀ k, (hasKey m k = true ∨ k ∈ ps.map (·.1)) →
      lookup? (ps.foldl (fun acc p => dictInsert p.1 p.1 acc) m) k = some k) := by
  intro ps
  induction ps with
  | nil =>
    intro m hm k hk
    rcases hk with hk | hk
    · exact lookup?_self m k hm hk
    · simp at hk
  | cons p ps' ih =>
    intro m hm k hk
    have hm' : ∀ q ∈ dictInsert p.1 p.1 m, q.2 = q.1 := by
      intro q hq
      rcases dictInsert_mem _ _ _ q hq with he | hmem
      · rw [he]
      · exact hm q hmem
    rw [List.foldl_cons]
    apply ih _ hm'
    rcases hk with hk | hk
    · left
      exact hasKey_dictInsert_mono _ _ _ _ hk
    · rw [List.map_cons, List.mem_cons] at hk
      rcases hk with hk | hk
      · left
        rw [hk]
        exact hasKey_dictInsert_self _ _ _
      · right
        exact hk

/-- C3 (amended): in extract mode, when every valid image's embedded data
decodes, one file is written per image having both fields, named exactly
by the image identifier, with the base64-decoding of the stripped data as
content, and the map binds each such identifier to itself; re-encoding
the written bytes yields the stripped data whenever that data is itself a
canonical base64 encoding of a byte string. -/
theorem c3_extract_mode (r : OcrResponse)
    (h : ∀ p ∈ validImgs r, (extractDecode p.2).isSome = true) :
    (extract_images_to_dir r).1 = (validImgs r).map (fun p => (p.1, extractBytes p)) ∧
    (∃ mp, (extract_images_to_dir r).2 = some (mp, (validImgs r).length) ∧
      ∀ p ∈ validImgs r, lookup? mp p.1 = some p.1) ∧
    (∀ p ∈ validImgs r, ∀ s : String, ∀ bs : Bytes,
      stripDataHeader p.2 = some s → s = b64encodeStr bs → (∀ x ∈ bs, x < 256) →
      extractDecode p.2 = some bs ∧ b64encodeStr (extractBytes p) = s) := by
  have hva : validImgs r = (allImages r).filterMap validPair? := rfl
  have hmain := extractGo_dec_ok extractDecode (allImages r) [] [] 0 (by rw [← hva]; exact h)
  refine ⟨?_, ?_, ?_⟩
  · unfold extract_images_to_dir
    rw [hmain]
    simp [hva, extractBytes]
  · refine ⟨(validImgs r).foldl (fun acc p => dictInsert p.1 p.1 acc) [], ?_, ?_⟩
    · unfold extract_images_to_dir
      rw [hmain]
      simp [hva]
    · intro p hp
      apply selfFold_lookup (validImgs r) [] (by simp)
      right
      exact List.mem_map.mpr ⟨p, hp, rfl⟩
  · intro p hp s bs hstrip henc hbs
    have hdec : extractDecode p.2 = some bs := by
      unfold extractDecode
      rw [hstrip]
      simp only [Option.bind_eq_bind, Option.some_bind]
      rw [henc]
      exact b64_roundtrip bs hbs
    refine ⟨hdec, ?_⟩
    unfold extractBytes
    rw [hdec, Option.getD_some, ← henc]

/-- C3 counterexample: the embedded data `AB==` is valid base64 but not a
canonical encoding — the written bytes re-encode to `AA==`, not `AB==`,
so re-encoding does not round-trip for every response. -/
theorem c3_extract_mode_cx :
    extract_images_to_dir rNoncanon = ([("i.png", [0])], some ([("i.png", "i.png")], 1)) ∧
    stripDataHeader "AB==" = some "AB==" ∧
    b64encodeStr [0] = "AA==" ∧ ("AA==" : String) ≠ "AB==" := by
  refine ⟨by decide, by decide, by decide, by decide⟩

/-- Witness for C3 at a concrete input. -/
theorem c3_extract_mode_witness :
    (extract_images_to_dir rNoncanon).1 =
      (validImgs rNoncanon).map (fun p => (p.1, extractBytes p)) ∧
    (∃ mp, (extract_images_to_dir rNoncanon).2 = some (mp, (validImgs rNoncanon).length) ∧
      ∀ p ∈ validImgs rNoncanon, lookup? mp p.1 = some p.1) ∧
    (∀ p ∈ validImgs rNoncanon, ∀ s : String, ∀ bs : Bytes,
      stripDataHeader p.2 = some s → s = b64encodeStr bs → (∀ x ∈ bs, x < 256) →
      extractDecode p.2 = some bs ∧ b64encodeStr (extractBytes p) = s) :=
  c3_extract_mode rNoncanon (by decide)

/-- C5: the five validation rules hold exactly when `validate_options`
passes, and any violation makes `ocr_pdf` fail with that rule's
user-facing message before any side effect: the event trace is empty —
no client construction, no network call, no file write. -/
theorem c5_validation :
    (∀ (convert : String → String) (o : Opts) (fb : Bytes) (api : Api) (msg : String),
      validate_options o.api_key o.output o.output_dir o.json_
        o.extract_images o.inline_images = .error msg →
      ocr_pdf convert o fb api = ([], .error msg)) ∧
    (∀ (ak out dir : Option String) (j ex inl : Bool),
      validate_options ak out dir j ex inl = .ok () ↔
        (truthy ak = true ∧ ¬(truthy out = true ∧ truthy dir = true) ∧
         ¬(j = true ∧ truthy dir = true) ∧ ¬(ex = true ∧ truthy dir = false) ∧
         ¬(inl = true ∧ ex = true))) := by
  constructor
  · intro convert o fb api msg h
    unfold ocr_pdf
    rw [h]
  · intro ak out dir j ex inl
    cases hak : truthy ak <;> cases hout : truthy out <;> cases hdir : truthy dir <;>
      cases j <;> cases ex <;> cases inl <;>
        simp [validate_options, hak, hout, hdir]

/-- Witness for C5 at the claim's own example, `--json` with `--output-dir`. -/
theorem c5_validation_witness :
    ocr_pdf (fun s => s) optsJsonDir [] apiAllOk =
      ([], .error "JSON output is not supported with --output-dir") :=
  c5_validation.1 (fun s => s) optsJsonDir [] apiAllOk
    "JSON output is not supported with --output-dir" (by decide)

/-- C2 (amended): in a document-variant invocation where the upload and
signed URL succeed, the OCR call raises and the cleanup delete succeeds,
the delete of the uploaded object is invoked exactly once — inside the
submission routine, and not again in the caller's `finally` block — and
the submission routine re-raises the original OCR error unchanged (the
command then reports it as the fatal message `Error: <original>`).  When
the cleanup delete itself raises, its exception replaces the original
one (see the counterexample). -/
theorem c2_cleanup_once (o : Opts) (fb : Bytes) (api : Api) (convert : String → String)
    (fid u e : String)
    (hval : validate_options o.api_key o.output o.output_dir o.json_
      o.extract_images o.inline_images = .ok ())
    (himg : isImageSuffix o.file_path = false)
    (hup : api.uploadRes = .ok fid)
    (hsu : api.signedUrlRes = .ok u)
    (hocr : api.ocrRes = .error e)
    (hdel : api.deleteRes = .ok ()) :
    (process_pdf api (o.inline_images || o.extract_images)).2 = Except.error e ∧
    ((process_pdf api (o.inline_images || o.extract_images)).1.countP isDelete) = 1 ∧
    ((ocr_pdf convert o fb api).1.countP isDelete) = 1 ∧
    (ocr_pdf convert o fb api).2 = Except.error ("Error: " ++ e) := by
  have hpp : process_pdf api (o.inline_images || o.extract_images) =
      ([.upload, .getSignedUrl,
        .ocrProcess (.documentURL u) (o.inline_images || o.extract_images),
        .deleteFile fid], .error e) := by
    unfold process_pdf
    rw [hup, hsu, hocr, hdel]
  have hop : ocr_pdf convert o fb api =
      (ApiEvent.clientInit ::
        [ApiEvent.upload, .getSignedUrl,
         .ocrProcess (.documentURL u) (o.inline_images || o.extract_images),
         .deleteFile fid], .error ("Error: " ++ e)) := by
    unfold ocr_pdf
    rw [hval, himg]
    simp only [hpp, Except.map]
    simp
  refine ⟨by rw [hpp], by rw [hpp]; simp [List.countP_cons, isDelete],
    by rw [hop]; simp [List.countP_cons, isDelete], by rw [hop]⟩

/-- Witness for C2 at a concrete input. -/
theorem c2_cleanup_once_witness :
    (process_pdf apiOcrFails false).2 = Except.error "ocr boom" ∧
    ((process_pdf apiOcrFails false).1.countP isDelete) = 1 ∧
    ((ocr_pdf (fun s => s) optsPdf [] apiOcrFails).1.countP isDelete) = 1 ∧
    (ocr_pdf (fun s => s) optsPdf [] apiOcrFails).2 = Except.error ("Error: " ++ "ocr boom") := by
  have h := c2_cleanup_once optsPdf [] apiOcrFails (fun s => s) "f1" "u1" "ocr boom"
    (by decide) (by decide) (by decide) (by decide) (by decide) (by decide)
  simpa using h

/-- C2 counterexample: same scenario but the cleanup delete itself raises
— the delete is still invoked exactly once, but the exception propagated
to the caller is the delete error, not the original OCR error, so the
claim's "original OCR error unchanged" fails as stated. -/
theorem c2_cleanup_once_cx :
    apiDeleteFails.uploadRes = .ok "f1" ∧
    apiDeleteFails.ocrRes = .error "ocr boom" ∧
    (process_pdf apiDeleteFails false).2 = Except.error "delete boom" ∧
    (process_pdf apiDeleteFails false).2 ≠ Except.error "ocr boom" ∧
    ((process_pdf apiDeleteFails false).1.countP isDelete) = 1 := by
  refine ⟨rfl, rfl, by decide, by decide, by decide⟩

/-- C6: for an image-variant invocation (any of the `.png`, `.jpg`,
`.jpeg` suffixes, case-insensitively) the file's bytes are base64-encoded
and submitted as a data URI whose declared MIME type is `image/jpeg`
regardless of the actual extension, right after client construction. -/
theorem c6_image_mime (o : Opts) (fb : Bytes) (api : Api) (convert : String → String)
    (hval : validate_options o.api_key o.output o.output_dir o.json_
      o.extract_images o.inline_images = .ok ())
    (himg : isImageSuffix o.file_path = true) :
    (ocr_pdf convert o fb api).1.take 2 =
      [ApiEvent.clientInit,
       ApiEvent.ocrProcess (DocChunk.imageURL ("data:image/jpeg;base64," ++ b64encodeStr fb))
         (o.inline_images || o.extract_images)] := by
  unfold ocr_pdf
  rw [hval, himg]
  cases hocr : api.ocrRes with
  | error e => simp [process_image, hocr, Except.map]
  | ok resp =>
    simp only [process_image, hocr, Except.map]
    split
    next => simp
    next => split <;> simp

/-- Witness for C6 at a concrete input: a `.PNG` file. -/
theorem c6_image_mime_witness :
    (ocr_pdf (fun s => s) optsPng [1, 2, 3] apiAllOk).1.take 2 =
      [ApiEvent.clientInit,
       ApiEvent.ocrProcess (DocChunk.imageURL ("data:image/jpeg;base64," ++ b64encodeStr [1, 2, 3]))
         (optsPng.inline_images || optsPng.extract_images)] :=
  c6_image_mime optsPng [1, 2, 3] apiAllOk (fun s => s) (by decide) (by decide)
